import Mathlib

/-!
Shallow embedding of `backend/services/clustering.py` (class `SpatialOrganizer`)
from the quant-memory-palace repository, together with proofs of the spec's
claims about it.

Python floats are modelled as exact reals (`ℝ`), NumPy vectors as `List ℝ`,
and 3-D points as `ℝ × ℝ × ℝ`.  Calls into scikit-learn / UMAP (PCA fits,
KMeans fits, HDBSCAN/DBSCAN fits, t-SNE fits) are opaque library calls from
the module's point of view; they are modelled as explicit function parameters
(`ProjCtx`, `ClusterCtx`, an inertia oracle), and Python exceptions are
modelled with `Except PyError`.
-/

/-- Kinds of Python exceptions relevant to `clustering.py`:
`ImportError` (caught by the t-SNE/UMAP fallbacks), generic runtime errors
raised by a fitted estimator, and `NameError` (an undefined global name). -/
inductive PyError
  | importError
  | valueError
  | nameError
deriving DecidableEq

/-- An embedding vector (one row of the NumPy array). -/
abbrev Vec := List ℝ

/-- A 3-D position `(x, y, z)`. -/
abbrev P3 := ℝ × ℝ × ℝ

/-- `np.dot` of two equal-length vectors. -/
def dotv (a b : Vec) : ℝ := (List.zipWith (fun x y => x * y) a b).sum

/-- `np.linalg.norm`: Euclidean norm of a vector. -/
noncomputable def normv (a : Vec) : ℝ := Real.sqrt ((a.map (fun x => x ^ 2)).sum)

/-- `SpatialOrganizer._cosine_similarity`: dot product over the product of
norms, returning `0.0` on a zero norm, clamped by `np.clip(·, -1.0, 1.0)`. -/
noncomputable def _cosine_similarity (a b : Vec) : ℝ :=
  if normv a = 0 ∨ normv b = 0 then 0
  else min (max (dotv a b / (normv a * normv b)) (-1)) 1

/-- Euclidean norm of a 3-D point (`np.linalg.norm` along `axis=1`). -/
noncomputable def norm3 (p : P3) : ℝ := Real.sqrt (p.1 ^ 2 + p.2.1 ^ 2 + p.2.2 ^ 2)

/-- `np.mean(positions, axis=0)`: the componentwise mean of a list of points. -/
noncomputable def centroid3 (ps : List P3) : P3 := ((ps.length : ℝ))⁻¹ • ps.sum

/-- `np.max(np.linalg.norm(positions, axis=1))` for a (nonempty) list,
written as a fold with neutral element `0` (all norms are nonnegative). -/
noncomputable def maxDist (ps : List P3) : ℝ := (ps.map norm3).foldr max 0

/-- `SpatialOrganizer._normalize_positions`: return empty input unchanged;
otherwise subtract the centroid from every point and, when the maximum
distance from the origin is positive, scale uniformly by `10 / max_dist`. -/
noncomputable def _normalize_positions (ps : List P3) : List P3 :=
  if ps = [] then ps
  else
    let centered := ps.map (fun p => p - centroid3 ps)
    if 0 < maxDist centered then
      centered.map (fun p => (10 / maxDist centered) • p)
    else centered

/-- The library-call surface used by the projection methods: the PCA pipeline
(`StandardScaler().fit_transform` + `PCA(...).fit_transform` + zero padding),
and the optional t-SNE / UMAP imports and fits.  `tsneAvailable = false`
models `from sklearn.manifold import TSNE` raising `ImportError` (likewise
for `import umap`); a fit either returns one 3-D row per input row or raises. -/
structure ProjCtx where
  pcaFit : List Vec → List P3
  tsneAvailable : Bool
  tsneFit : List Vec → Except PyError (List P3)
  umapAvailable : Bool
  umapFit : List Vec → Except PyError (List P3)

/-- `SpatialOrganizer._pca_positions`: a single document is placed at the
origin; otherwise the scaler + PCA pipeline runs (opaque library call). -/
def _pca_positions (ctx : ProjCtx) (embs : List Vec) : List P3 :=
  if embs.length = 1 then [((0 : ℝ), (0 : ℝ), (0 : ℝ))]
  else ctx.pcaFit embs

/-- `SpatialOrganizer._tsne_positions`: the whole body runs under
`try ... except ImportError`, which falls back to `_pca_positions`.  A
failed import falls back; one sample maps to the origin; a fit that raises
`ImportError` also falls back, while any other exception propagates. -/
def _tsne_positions (ctx : ProjCtx) (embs : List Vec) : Except PyError (List P3) :=
  if ¬ ctx.tsneAvailable then .ok (_pca_positions ctx embs)
  else if embs.length = 1 then .ok [((0 : ℝ), (0 : ℝ), (0 : ℝ))]
  else
    match ctx.tsneFit embs with
    | .ok ps => .ok ps
    | .error .importError => .ok (_pca_positions ctx embs)
    | .error e => .error e

/-- `SpatialOrganizer._umap_positions`: same `try ... except ImportError`
structure as the t-SNE path, with the UMAP library. -/
def _umap_positions (ctx : ProjCtx) (embs : List Vec) : Except PyError (List P3) :=
  if ¬ ctx.umapAvailable then .ok (_pca_positions ctx embs)
  else if embs.length = 1 then .ok [((0 : ℝ), (0 : ℝ), (0 : ℝ))]
  else
    match ctx.umapFit embs with
    | .ok ps => .ok ps
    | .error .importError => .ok (_pca_positions ctx embs)
    | .error e => .error e

/-- `SpatialOrganizer.calculate_3d_positions`: empty input returns `[]`;
otherwise dispatch on the method string (any unknown string uses PCA), then
normalize the resulting positions.  The final dict conversion is the
identity on the modelled values. -/
noncomputable def calculate_3d_positions (ctx : ProjCtx) (embs : List Vec)
    (method : String) : Except PyError (List P3) :=
  if embs = [] then .ok []
  else
    let raw : Except PyError (List P3) :=
      if method = "pca" then .ok (_pca_positions ctx embs)
      else if method = "tsne" then _tsne_positions ctx embs
      else if method = "umap" then _umap_positions ctx embs
      else .ok (_pca_positions ctx embs)
    match raw with
    | .ok ps => .ok (_normalize_positions ps)
    | .error e => .error e

/-- The library-call surface used by `cluster_documents`: whether
`from sklearn.cluster import HDBSCAN` succeeded at module import time
(when it fails, and only then, `DBSCAN` is imported instead), plus the three
estimators' `fit_predict` as opaque functions of their parameters.
`kmeansFit` takes `n_clusters`, `hdbscanFit` takes `min_cluster_size`,
`dbscanFit` takes `eps` and `min_samples`; each returns one label per row. -/
structure ClusterCtx where
  hasHDBSCAN : Bool
  kmeansFit : ℕ → List Vec → List ℤ
  hdbscanFit : ℕ → List Vec → List ℤ
  dbscanFit : ℝ → ℕ → List Vec → List ℤ

/-- Python truthiness of the `n_clusters: Optional[int]` argument:
`None` and `0` are falsy. -/
def nClustersTruthy (n_clusters : Option ℕ) : Prop :=
  match n_clusters with
  | some k => k ≠ 0
  | none => False

instance (n_clusters : Option ℕ) : Decidable (nClustersTruthy n_clusters) := by
  unfold nClustersTruthy
  match n_clusters with
  | some k => exact instDecidableNot
  | none => exact instDecidableFalse

/-- `SpatialOrganizer.cluster_documents`: empty input returns `[]`; fewer than
two samples return all-zero labels; `method == "kmeans"` with a truthy
`n_clusters` runs KMeans with `min(n_clusters, n_samples)` clusters;
`method == "hdbscan"` with HDBSCAN present runs HDBSCAN with
`min_cluster_size = max(2, n_samples // 10)`; every remaining case executes
`DBSCAN(eps=0.5, min_samples=2)` — but the name `DBSCAN` is only bound when
the HDBSCAN import failed, so with HDBSCAN present this line raises
`NameError`. -/
noncomputable def cluster_documents (ctx : ClusterCtx) (embs : List Vec)
    (method : String) (n_clusters : Option ℕ) : Except PyError (List ℤ) :=
  if embs = [] then .ok []
  else
    let n := embs.length
    if n < 2 then .ok (List.replicate n 0)
    else if method = "kmeans" ∧ nClustersTruthy n_clusters then
      .ok (ctx.kmeansFit (min (n_clusters.getD 0) n) embs)
    else if method = "hdbscan" ∧ ctx.hasHDBSCAN then
      .ok (ctx.hdbscanFit (max 2 (n / 10)) embs)
    else if ctx.hasHDBSCAN then .error .nameError
    else .ok (ctx.dbscanFit ((1 : ℝ) / 2) 2 embs)

/-- One connection emitted by `_calculate_connections`:
`{"source": i, "target": j, "strength": s}`. -/
structure Connection where
  source : ℕ
  target : ℕ
  strength : ℝ

/-- `SpatialOrganizer._calculate_connections`: for fewer than two documents
return no connections; otherwise, for each `i` in `range(n)` and each `j` in
`range(i+1, n)`, emit `(i, j, similarity)` when the cosine similarity is at
least the threshold (default `0.8`). -/
noncomputable def _calculate_connections (embs : List Vec) (threshold : ℝ) :
    List Connection :=
  if embs.length < 2 then []
  else
    (List.range embs.length).flatMap (fun i =>
      (List.range' (i + 1) (embs.length - (i + 1))).filterMap (fun j =>
        let s := _cosine_similarity (embs.getD i []) (embs.getD j [])
        if threshold ≤ s then some ⟨i, j, s⟩ else none))

/-- One entry of the dict `clusters[label]` built by
`_calculate_cluster_info`: the label, the member indices in insertion order,
and the members' positions in the same order. -/
structure LabelGroup where
  gid : ℤ
  gdocs : List ℕ
  gpos : List P3

/-- Appending `(i, p)` to the dict entry for `lab`, creating the entry at the
end when absent (Python dicts preserve insertion order). -/
def insertDoc : List LabelGroup → ℤ → ℕ → P3 → List LabelGroup
  | [], lab, i, p => [⟨lab, [i], [p]⟩]
  | g :: rest, lab, i, p =>
      if g.gid = lab then ⟨g.gid, g.gdocs ++ [i], g.gpos ++ [p]⟩ :: rest
      else g :: insertDoc rest lab i p

/-- The `for i, label in enumerate(labels)` loop of
`_calculate_cluster_info`: noise labels `-1` are skipped, every other index
is appended to its label's dict entry together with `positions_array[i]`. -/
def buildGroups (positions : List P3) : List ℤ → ℕ → List LabelGroup → List LabelGroup
  | [], _, gs => gs
  | lab :: rest, i, gs =>
      if lab = -1 then buildGroups positions rest (i + 1) gs
      else buildGroups positions rest (i + 1)
        (insertDoc gs lab i (positions.getD i ((0 : ℝ), (0 : ℝ), (0 : ℝ))))

/-- One element of the list returned by `_calculate_cluster_info`. -/
structure ClusterInfo where
  cluster_id : ℤ
  center : P3
  size : ℕ
  document_indices : List ℕ

/-- `SpatialOrganizer._calculate_cluster_info`: empty positions or labels
give `[]`; otherwise group the indices by label (skipping `-1`) and emit,
per group, its id, the mean of the member positions, the member count and
the member indices. -/
noncomputable def _calculate_cluster_info (positions : List P3)
    (labels : List ℤ) : List ClusterInfo :=
  if positions = [] ∨ labels = [] then []
  else
    (buildGroups positions labels 0 []).map (fun g =>
      { cluster_id := g.gid
        center := ((g.gpos.length : ℝ))⁻¹ • g.gpos.sum
        size := g.gdocs.length
        document_indices := g.gdocs })

/-- One element of the `"documents"` list returned by
`organize_spatial_layout`: the original document together with its derived
`"position"` and `"cluster"` attributes. -/
structure OrganizedDoc (α : Type) where
  doc : α
  position : P3
  cluster : ℤ

/-- The result dict of `organize_spatial_layout`. -/
structure Layout (α : Type) where
  docsOut : List (OrganizedDoc α)
  clusters : List ClusterInfo
  connections : List Connection

/-- `SpatialOrganizer.organize_spatial_layout`: empty documents or embeddings
return all-empty outputs; otherwise compute positions (default method
`"pca"`), cluster labels (default `"hdbscan"`, `n_clusters=None`) and
connections (default threshold `0.8`) on the same embedding matrix, attach
position and cluster to each document by index (with defaults on index
overflow), and derive the per-cluster summaries. -/
noncomputable def organize_spatial_layout {α : Type} (pctx : ProjCtx)
    (cctx : ClusterCtx) (docs : List α) (embs : List Vec) :
    Except PyError (Layout α) :=
  if docs.isEmpty ∨ embs.isEmpty then .ok ⟨[], [], []⟩
  else
    match calculate_3d_positions pctx embs "pca" with
    | .error e => .error e
    | .ok positions =>
      match cluster_documents cctx embs "hdbscan" none with
      | .error e => .error e
      | .ok labels =>
        let connections := _calculate_connections embs ((8 : ℝ) / 10)
        let odocs := docs.enum.map (fun x =>
          { doc := x.2
            position :=
              if x.1 < positions.length then
                positions.getD x.1 ((0 : ℝ), (0 : ℝ), (0 : ℝ))
              else ((0 : ℝ), (0 : ℝ), (0 : ℝ))
            cluster := if x.1 < labels.length then labels.getD x.1 0 else -1 })
        .ok ⟨odocs, _calculate_cluster_info positions labels, connections⟩

/-- `inertias[i+1] - 2*inertias[i] + inertias[i-1]` for `i = 1 .. len-2`,
the discrete second derivative computed by `suggest_optimal_clusters`. -/
def secondDerivative (l : List ℝ) : List ℝ :=
  List.zipWith3 (fun a b c => a - 2 * b + c) (l.drop 2) (l.drop 1) l

/-- Tail loop of `np.argmax`: scan the remaining values, remembering the
index of the first maximum seen so far. -/
noncomputable def argmaxAux : List ℝ → ℕ → ℕ → ℝ → ℕ
  | [], _, bi, _ => bi
  | v :: vs, i, bi, bv =>
      if bv < v then argmaxAux vs (i + 1) i v else argmaxAux vs (i + 1) bi bv

/-- `np.argmax`: index of the first occurrence of the maximum (the Python
call is only reached on nonempty input; `[]` is mapped to `0`). -/
noncomputable def np_argmax : List ℝ → ℕ
  | [] => 0
  | v :: vs => argmaxAux vs 1 0 v

/-- `SpatialOrganizer.suggest_optimal_clusters`, with the KMeans fits
abstracted into an inertia oracle `inertiaOf k` (the `random_state=42` fit on
the given embeddings is deterministic) and `n` the number of embeddings:
fewer than 3 embeddings return `1`; otherwise the inertia list for
`k = 1 .. min(10, n-1)` is recorded; a list shorter than 3 returns `2`;
otherwise the result is `np.argmax(second_derivative) + 2`. -/
noncomputable def suggest_optimal_clusters (inertiaOf : ℕ → ℝ) (n : ℕ) : ℕ :=
  if n < 3 then 1
  else
    let maxClusters := min 10 (n - 1)
    let inertiaList := (List.range' 1 maxClusters).map inertiaOf
    if inertiaList.length < 3 then 2
    else np_argmax (secondDerivative inertiaList) + 2

/-- Concrete projection context used by witnesses: PCA maps every row to the
origin, and the t-SNE / UMAP libraries are unavailable. -/
def ctxPW : ProjCtx where
  pcaFit := fun e => e.map (fun _ => ((0 : ℝ), (0 : ℝ), (0 : ℝ)))
  tsneAvailable := false
  tsneFit := fun _ => .error .valueError
  umapAvailable := false
  umapFit := fun _ => .error .valueError

/-- Concrete clustering context used by witnesses: HDBSCAN importable, all
estimators label every row `0`. -/
def ctxCW : ClusterCtx where
  hasHDBSCAN := true
  kmeansFit := fun _ e => e.map (fun _ => 0)
  hdbscanFit := fun _ e => e.map (fun _ => 0)
  dbscanFit := fun _ _ e => e.map (fun _ => 0)

/-- Concrete clustering context in which the HDBSCAN import failed, so
`DBSCAN` was imported instead. -/
def ctxDW : ClusterCtx where
  hasHDBSCAN := false
  kmeansFit := fun _ e => e.map (fun _ => 0)
  hdbscanFit := fun _ e => e.map (fun _ => 0)
  dbscanFit := fun _ _ e => e.map (fun _ => 0)

/-- Concrete projection context whose t-SNE library imports fine but whose
fit raises a (non-import) runtime error. -/
def ctxTE : ProjCtx where
  pcaFit := fun e => e.map (fun _ => ((0 : ℝ), (0 : ℝ), (0 : ℝ)))
  tsneAvailable := true
  tsneFit := fun _ => .error .valueError
  umapAvailable := true
  umapFit := fun _ => .error .valueError

/-- The list of absolute indices (starting at offset `i`) at which the
label list takes the value `lab` — the semantics of the per-label
`clusters[label]["documents"]` accumulation. -/
def memberIdxFrom : List ℤ → ℕ → ℤ → List ℕ
  | [], _, _ => []
  | l :: rest, i, lab =>
      (if l = lab then [i] else []) ++ memberIdxFrom rest (i + 1) lab


/-! ### Helper lemmas about sums, folds and norms -/

lemma sum_map_smul (c : ℝ) (l : List P3) :
    (l.map (fun p => c • p)).sum = c • l.sum := by
  induction l with
  | nil => simp
  | cons p l ih => simp [ih, smul_add]

lemma sum_map_sub_const (l : List P3) (c : P3) :
    (l.map (fun p => p - c)).sum = l.sum - l.length • c := by
  induction l with
  | nil => simp
  | cons p l ih =>
      simp only [List.map_cons, List.sum_cons, ih, List.length_cons, succ_nsmul]
      abel

lemma sum_map_sub_centroid (ps : List P3) (h : ps ≠ []) :
    (ps.map (fun p => p - centroid3 ps)).sum = 0 := by
  have hlen : (ps.length : ℝ) ≠ 0 := by
    exact_mod_cast List.length_pos.mpr h |>.ne'
  rw [sum_map_sub_const, centroid3, ← Nat.cast_smul_eq_nsmul ℝ, smul_smul,
    mul_inv_cancel₀ hlen, one_smul, sub_self]

lemma foldr_max_nonneg (l : List ℝ) : 0 ≤ l.foldr max 0 := by
  induction l with
  | nil => exact le_refl 0
  | cons v l ih => exact le_trans ih (le_max_right v _)

lemma mem_le_foldr_max (l : List ℝ) (x : ℝ) (hx : x ∈ l) : x ≤ l.foldr max 0 := by
  induction l with
  | nil => cases hx
  | cons v l ih =>
      rw [List.foldr_cons]
      rcases List.mem_cons.mp hx with h | h
      · rw [h]
        exact le_max_left _ _
      · exact le_trans (ih h) (le_max_right _ _)

lemma foldr_max_map_mul (c : ℝ) (hc : 0 ≤ c) (l : List ℝ) :
    (l.map (fun x => c * x)).foldr max 0 = c * l.foldr max 0 := by
  induction l with
  | nil => simp
  | cons v l ih => simp [ih, mul_max_of_nonneg _ _ hc]

lemma norm3_nonneg (p : P3) : 0 ≤ norm3 p := Real.sqrt_nonneg _

lemma norm3_smul (c : ℝ) (hc : 0 ≤ c) (p : P3) : norm3 (c • p) = c * norm3 p := by
  have h1 : (c • p).1 = c * p.1 := rfl
  have h2 : (c • p).2.1 = c * p.2.1 := rfl
  have h3 : (c • p).2.2 = c * p.2.2 := rfl
  rw [norm3, norm3, h1, h2, h3]
  have : (c * p.1) ^ 2 + (c * p.2.1) ^ 2 + (c * p.2.2) ^ 2
      = c ^ 2 * (p.1 ^ 2 + p.2.1 ^ 2 + p.2.2 ^ 2) := by ring
  rw [this, Real.sqrt_mul (sq_nonneg c), Real.sqrt_sq hc]

lemma maxDist_nonneg (ps : List P3) : 0 ≤ maxDist ps := foldr_max_nonneg _

lemma norm3_le_maxDist {ps : List P3} {p : P3} (hp : p ∈ ps) :
    norm3 p ≤ maxDist ps :=
  mem_le_foldr_max _ _ (List.mem_map_of_mem norm3 hp)

lemma maxDist_map_smul (c : ℝ) (hc : 0 ≤ c) (ps : List P3) :
    maxDist (ps.map (fun p => c • p)) = c * maxDist ps := by
  have h1 : (ps.map (fun p => c • p)).map norm3
      = (ps.map norm3).map (fun x => c * x) := by
    simp only [List.map_map, Function.comp_def]
    exact List.map_congr_left (fun p _ => norm3_smul c hc p)
  rw [maxDist, h1, foldr_max_map_mul c hc]
  rfl

/-! ### Behaviour of `_normalize_positions` -/

lemma normalize_positions_spec (ps : List P3) (h : ps ≠ []) :
    (_normalize_positions ps).length = ps.length ∧
    (_normalize_positions ps).sum = 0 ∧
    (∀ q ∈ _normalize_positions ps, norm3 q ≤ 10) ∧
    (0 < maxDist (_normalize_positions ps) →
      maxDist (_normalize_positions ps) = 10) := by
  rw [_normalize_positions, if_neg h]
  set centered := ps.map (fun p => p - centroid3 ps) with hcdef
  have hcsum : centered.sum = 0 := sum_map_sub_centroid ps h
  by_cases hm : 0 < maxDist centered
  · rw [if_pos hm]
    have hcnn : (0 : ℝ) ≤ 10 / maxDist centered := by positivity
    have hmax : maxDist (centered.map (fun p => (10 / maxDist centered) • p))
        = 10 := by
      rw [maxDist_map_smul _ hcnn, div_mul_cancel₀ _ hm.ne']
    refine ⟨by simp [hcdef], ?_, ?_, fun _ => hmax⟩
    · rw [sum_map_smul, hcsum, smul_zero]
    · intro q hq
      exact hmax ▸ norm3_le_maxDist hq
  · rw [if_neg hm]
    have hmz : maxDist centered = 0 :=
      le_antisymm (not_lt.mp hm) (maxDist_nonneg _)
    refine ⟨by simp [hcdef], hcsum, ?_, ?_⟩
    · intro q hq
      exact le_trans (norm3_le_maxDist hq) (by rw [hmz]; norm_num)
    · intro h0
      rw [hmz] at h0
      exact absurd h0 (lt_irrefl 0)

lemma norm3_zero : norm3 (0 : P3) = 0 := by
  rw [norm3]
  norm_num

lemma centroid3_single (p : P3) : centroid3 [p] = p := by
  rw [centroid3]
  simp

lemma normalize_positions_eq (ps : List P3) (h : ps ≠ []) :
    _normalize_positions ps =
      if 0 < maxDist (ps.map (fun p => p - centroid3 ps)) then
        (ps.map (fun p => p - centroid3 ps)).map
          (fun p => (10 / maxDist (ps.map (fun p => p - centroid3 ps))) • p)
      else ps.map (fun p => p - centroid3 ps) := by
  rw [_normalize_positions, if_neg h]

lemma normalize_positions_single (p : P3) :
    _normalize_positions [p] = [((0 : ℝ), (0 : ℝ), (0 : ℝ))] := by
  have hc : [p].map (fun q => q - centroid3 [p]) = [(0 : P3)] := by
    rw [centroid3_single]
    simp
  have hm : maxDist [(0 : P3)] = 0 := by
    rw [maxDist]
    simp [norm3_zero]
  rw [normalize_positions_eq [p] (by simp), hc, hm, if_neg (lt_irrefl 0)]
  simp [Prod.ext_iff]

lemma pca_positions_length (ctx : ProjCtx)
    (hpca : ∀ e, (ctx.pcaFit e).length = e.length) (embs : List Vec) :
    (_pca_positions ctx embs).length = embs.length := by
  rw [_pca_positions]
  by_cases h1 : embs.length = 1
  · rw [if_pos h1, h1]
    rfl
  · rw [if_neg h1]
    exact hpca embs

/-- Any `ok` result of `calculate_3d_positions` on a nonempty input is the
normalization of a nonempty raw position list (given that each library fit
returns one row per input row). -/
lemma calculate_3d_positions_ok_shape (ctx : ProjCtx) (embs : List Vec)
    (method : String) (hne : embs ≠ [])
    (hpca : ∀ e, (ctx.pcaFit e).length = e.length)
    (htsne : ∀ e r, ctx.tsneFit e = .ok r → r.length = e.length)
    (humap : ∀ e r, ctx.umapFit e = .ok r → r.length = e.length)
    (ps : List P3) (hok : calculate_3d_positions ctx embs method = .ok ps) :
    ∃ raw, raw ≠ [] ∧ ps = _normalize_positions raw := by
  have hlanyraw : ∀ raw : List P3, raw.length = embs.length → raw ≠ [] := by
    intro raw hlen
    intro hr
    rw [hr] at hlen
    exact hne (List.length_eq_zero.mp hlen.symm)
  have hpcane : _pca_positions ctx embs ≠ [] :=
    hlanyraw _ (pca_positions_length ctx hpca embs)
  rw [calculate_3d_positions, if_neg hne] at hok
  by_cases hm1 : method = "pca"
  · rw [if_pos hm1] at hok
    exact ⟨_, hpcane, (Except.ok.injEq _ _).mp hok |>.symm⟩
  rw [if_neg hm1] at hok
  by_cases hm2 : method = "tsne"
  · rw [if_pos hm2] at hok
    rw [_tsne_positions] at hok
    by_cases ha : ctx.tsneAvailable
    · rw [if_neg (by simp [ha])] at hok
      by_cases h1 : embs.length = 1
      · rw [if_pos h1] at hok
        exact ⟨_, by simp, (Except.ok.injEq _ _).mp hok |>.symm⟩
      · rw [if_neg h1] at hok
        cases hfit : ctx.tsneFit embs with
        | ok r =>
            rw [hfit] at hok
            exact ⟨r, hlanyraw r (htsne embs r hfit),
              (Except.ok.injEq _ _).mp hok |>.symm⟩
        | error e =>
            rw [hfit] at hok
            cases e with
            | importError =>
                exact ⟨_, hpcane, (Except.ok.injEq _ _).mp hok |>.symm⟩
            | valueError => cases hok
            | nameError => cases hok
    · rw [if_pos (by simp [ha])] at hok
      exact ⟨_, hpcane, (Except.ok.injEq _ _).mp hok |>.symm⟩
  rw [if_neg hm2] at hok
  by_cases hm3 : method = "umap"
  · rw [if_pos hm3] at hok
    rw [_umap_positions] at hok
    by_cases ha : ctx.umapAvailable
    · rw [if_neg (by simp [ha])] at hok
      by_cases h1 : embs.length = 1
      · rw [if_pos h1] at hok
        exact ⟨_, by simp, (Except.ok.injEq _ _).mp hok |>.symm⟩
      · rw [if_neg h1] at hok
        cases hfit : ctx.umapFit embs with
        | ok r =>
            rw [hfit] at hok
            exact ⟨r, hlanyraw r (humap embs r hfit),
              (Except.ok.injEq _ _).mp hok |>.symm⟩
        | error e =>
            rw [hfit] at hok
            cases e with
            | importError =>
                exact ⟨_, hpcane, (Except.ok.injEq _ _).mp hok |>.symm⟩
            | valueError => cases hok
            | nameError => cases hok
    · rw [if_pos (by simp [ha])] at hok
      exact ⟨_, hpcane, (Except.ok.injEq _ _).mp hok |>.symm⟩
  rw [if_neg hm3] at hok
  exact ⟨_, hpcane, (Except.ok.injEq _ _).mp hok |>.symm⟩

lemma pca_positions_single (ctx : ProjCtx) (v : Vec) :
    _pca_positions ctx [v] = [((0 : ℝ), (0 : ℝ), (0 : ℝ))] := by
  rw [_pca_positions, if_pos (by simp)]

lemma tsne_positions_single (ctx : ProjCtx) (v : Vec) :
    _tsne_positions ctx [v] = .ok [((0 : ℝ), (0 : ℝ), (0 : ℝ))] := by
  rw [_tsne_positions]
  by_cases ha : ctx.tsneAvailable
  · rw [if_neg (by simp [ha]), if_pos (by simp)]
  · rw [if_pos (by simp [ha]), pca_positions_single]

lemma umap_positions_single (ctx : ProjCtx) (v : Vec) :
    _umap_positions ctx [v] = .ok [((0 : ℝ), (0 : ℝ), (0 : ℝ))] := by
  rw [_umap_positions]
  by_cases ha : ctx.umapAvailable
  · rw [if_neg (by simp [ha]), if_pos (by simp)]
  · rw [if_pos (by simp [ha]), pca_positions_single]

/-- C9: `project([])` returns the empty sequence, and `project([v])` returns
the single position `(0,0,0)` for any one vector `v`, regardless of the
selected projection method. -/
theorem project_empty_and_singleton (ctx : ProjCtx) (v : Vec) (method : String) :
    calculate_3d_positions ctx [] method = .ok [] ∧
    calculate_3d_positions ctx [v] method = .ok [((0 : ℝ), (0 : ℝ), (0 : ℝ))] := by
  constructor
  · rw [calculate_3d_positions, if_pos rfl]
  · rw [calculate_3d_positions, if_neg (by simp)]
    by_cases hm1 : method = "pca"
    · rw [if_pos hm1, pca_positions_single]
      exact congrArg Except.ok (normalize_positions_single _)
    rw [if_neg hm1]
    by_cases hm2 : method = "tsne"
    · rw [if_pos hm2, tsne_positions_single]
      exact congrArg Except.ok (normalize_positions_single _)
    rw [if_neg hm2]
    by_cases hm3 : method = "umap"
    · rw [if_pos hm3, umap_positions_single]
      exact congrArg Except.ok (normalize_positions_single _)
    rw [if_neg hm3, pca_positions_single]
    exact congrArg Except.ok (normalize_positions_single _)

/-- C1: for every non-empty list of embeddings and any projection method
(assuming each library fit returns one 3-D row per input row), a position
list returned by `calculate_3d_positions` is non-empty, has its centroid at
the origin, every position lies within distance 10 of the origin, and
whenever the maximum distance is positive it is exactly 10. -/
theorem calculate_3d_positions_invariant (ctx : ProjCtx) (embs : List Vec)
    (method : String) (hne : embs ≠ [])
    (hpca : ∀ e, (ctx.pcaFit e).length = e.length)
    (htsne : ∀ e r, ctx.tsneFit e = .ok r → r.length = e.length)
    (humap : ∀ e r, ctx.umapFit e = .ok r → r.length = e.length)
    (ps : List P3) (hok : calculate_3d_positions ctx embs method = .ok ps) :
    ps ≠ [] ∧ centroid3 ps = 0 ∧ (∀ p ∈ ps, norm3 p ≤ 10) ∧
      (0 < maxDist ps → maxDist ps = 10) := by
  obtain ⟨raw, hrawne, hps⟩ :=
    calculate_3d_positions_ok_shape ctx embs method hne hpca htsne humap ps hok
  obtain ⟨hlen, hsum, hle, hmax⟩ := normalize_positions_spec raw hrawne
  subst hps
  refine ⟨?_, ?_, hle, hmax⟩
  · intro hnil
    rw [hnil] at hlen
    exact hrawne (List.length_eq_zero.mp hlen.symm)
  · rw [centroid3, hsum, smul_zero]


lemma ctxPW_pca_singleton :
    calculate_3d_positions ctxPW [[(1 : ℝ)]] "pca"
      = .ok [((0 : ℝ), (0 : ℝ), (0 : ℝ))] := by
  rw [calculate_3d_positions, if_neg (by simp), if_pos rfl, pca_positions_single]
  exact congrArg Except.ok (normalize_positions_single _)

/-- Witness for C1 at the concrete input `[[1.0]]` with method `"pca"`. -/
theorem calculate_3d_positions_invariant_witness :
    (([[(1 : ℝ)]] : List Vec) ≠ []) ∧
    ([((0 : ℝ), (0 : ℝ), (0 : ℝ))] ≠ [] ∧
      centroid3 [((0 : ℝ), (0 : ℝ), (0 : ℝ))] = 0 ∧
      (∀ p ∈ [((0 : ℝ), (0 : ℝ), (0 : ℝ))], norm3 p ≤ 10) ∧
      (0 < maxDist [((0 : ℝ), (0 : ℝ), (0 : ℝ))] →
        maxDist [((0 : ℝ), (0 : ℝ), (0 : ℝ))] = 10)) :=
  ⟨by simp,
    calculate_3d_positions_invariant ctxPW [[(1 : ℝ)]] "pca" (by simp)
      (fun e => by simp [ctxPW])
      (fun e r h => by simp [ctxPW] at h)
      (fun e r h => by simp [ctxPW] at h)
      _ ctxPW_pca_singleton⟩

/-! ### Cosine similarity -/

lemma sum_sq_nonneg (v : Vec) : 0 ≤ (v.map (fun x => x ^ 2)).sum :=
  List.sum_nonneg (by
    intro x hx
    obtain ⟨y, _, rfl⟩ := List.mem_map.mp hx
    exact sq_nonneg y)

lemma dotv_self (v : Vec) : dotv v v = (v.map (fun x => x ^ 2)).sum := by
  rw [dotv, List.zipWith_same]
  exact congrArg List.sum (List.map_congr_left (fun x _ => (sq x).symm))

lemma normv_mul_self (v : Vec) : normv v * normv v = (v.map (fun x => x ^ 2)).sum := by
  rw [normv]
  exact Real.mul_self_sqrt (sum_sq_nonneg v)

/-- C2: `_cosine_similarity` returns exactly `0.0` when either vector has
zero norm; otherwise it returns `dot(a,b) / (‖a‖ * ‖b‖)` clamped to
`[-1, 1]`; its value always lies in `[-1, 1]`; and it equals exactly `1` on
any vector of nonzero norm paired with itself. -/
theorem cosine_similarity_contract (a b v : Vec) :
    ((normv a = 0 ∨ normv b = 0) → _cosine_similarity a b = 0) ∧
    (¬(normv a = 0 ∨ normv b = 0) →
      _cosine_similarity a b
        = min (max (dotv a b / (normv a * normv b)) (-1)) 1) ∧
    -1 ≤ _cosine_similarity a b ∧ _cosine_similarity a b ≤ 1 ∧
    (normv v ≠ 0 → _cosine_similarity v v = 1) := by
  refine ⟨?_, ?_, ?_, ?_, ?_⟩
  · intro h
    rw [_cosine_similarity, if_pos h]
  · intro h
    rw [_cosine_similarity, if_neg h]
  · rw [_cosine_similarity]
    by_cases h : normv a = 0 ∨ normv b = 0
    · rw [if_pos h]
      norm_num
    · rw [if_neg h]
      exact le_min (le_max_right _ _) (by norm_num)
  · rw [_cosine_similarity]
    by_cases h : normv a = 0 ∨ normv b = 0
    · rw [if_pos h]
      norm_num
    · rw [if_neg h]
      exact min_le_right _ _
  · intro hv
    have hsum : (v.map (fun x => x ^ 2)).sum ≠ 0 := by
      intro h0
      apply hv
      rw [normv, h0, Real.sqrt_zero]
    rw [_cosine_similarity, if_neg (by push_neg; exact ⟨hv, hv⟩),
      dotv_self, ← normv_mul_self, div_self (by rw [normv_mul_self]; exact hsum)]
    rw [max_eq_left (by norm_num), min_self]

/-- Witness for C2 at `v = [1.0]`. -/
theorem cosine_similarity_contract_witness :
    normv [(1 : ℝ)] ≠ 0 ∧ _cosine_similarity [(1 : ℝ)] [(1 : ℝ)] = 1 :=
  ⟨by simp [normv],
    (cosine_similarity_contract [(1 : ℝ)] [(1 : ℝ)] [(1 : ℝ)]).2.2.2.2
      (by simp [normv])⟩

/-! ### Connection graph -/

lemma cosine_le_one (a b : Vec) : _cosine_similarity a b ≤ 1 := by
  rw [_cosine_similarity]
  by_cases h : normv a = 0 ∨ normv b = 0
  · rw [if_pos h]
    norm_num
  · rw [if_neg h]
    exact min_le_right _ _

lemma cosine_self_one (v : Vec) (hv : normv v ≠ 0) :
    _cosine_similarity v v = 1 := by
  have hsum : (v.map (fun x => x ^ 2)).sum ≠ 0 := by
    intro h0
    apply hv
    rw [normv, h0, Real.sqrt_zero]
  rw [_cosine_similarity, if_neg (by push_neg; exact ⟨hv, hv⟩),
    dotv_self, ← normv_mul_self, div_self (by rw [normv_mul_self]; exact hsum)]
  rw [max_eq_left (by norm_num), min_self]

lemma mem_range'_iff (s n j : ℕ) : j ∈ List.range' s n ↔ s ≤ j ∧ j < s + n := by
  rw [List.mem_range']
  constructor
  · rintro ⟨k, hk, rfl⟩
    omega
  · intro h
    exact ⟨j - s, by omega, by omega⟩

lemma emit_eq_some {t s : ℝ} {i j : ℕ} {c : Connection}
    (h : (if t ≤ s then some (⟨i, j, s⟩ : Connection) else none) = some c) :
    c = ⟨i, j, s⟩ ∧ t ≤ s := by
  by_cases hts : t ≤ s
  · rw [if_pos hts] at h
    exact ⟨((Option.some.injEq _ _).mp h).symm, hts⟩
  · rw [if_neg hts] at h
    cases h

lemma mem_calculate_connections (embs : List Vec) (threshold : ℝ)
    (c : Connection) :
    c ∈ _calculate_connections embs threshold ↔
      c.source < c.target ∧ c.target < embs.length ∧
      threshold ≤ _cosine_similarity (embs.getD c.source [])
        (embs.getD c.target []) ∧
      c.strength = _cosine_similarity (embs.getD c.source [])
        (embs.getD c.target []) := by
  rw [_calculate_connections]
  by_cases hn : embs.length < 2
  · rw [if_pos hn]
    simp only [List.not_mem_nil, false_iff]
    intro h
    omega
  · rw [if_neg hn]
    constructor
    · intro hc
      obtain ⟨i, hi, hc⟩ := List.mem_flatMap.mp hc
      obtain ⟨j, hj, hcj⟩ := List.mem_filterMap.mp hc
      rw [List.mem_range] at hi
      rw [mem_range'_iff] at hj
      obtain ⟨heq, hts⟩ := emit_eq_some hcj
      subst heq
      exact ⟨show i < j by omega, show j < embs.length by omega, hts, rfl⟩
    · rintro ⟨h1, h2, h3, h4⟩
      refine List.mem_flatMap.mpr ⟨c.source, List.mem_range.mpr (by omega), ?_⟩
      refine List.mem_filterMap.mpr ⟨c.target,
        (mem_range'_iff _ _ _).mpr ⟨by omega, by omega⟩, ?_⟩
      show (if threshold ≤ _cosine_similarity (embs.getD c.source [])
          (embs.getD c.target []) then
        some (⟨c.source, c.target, _cosine_similarity (embs.getD c.source [])
          (embs.getD c.target [])⟩ : Connection) else none) = some c
      rw [if_pos h3, ← h4]

/-- C3: `_calculate_connections` emits exactly one edge `(i, j, strength)`
for every index pair `i < j` whose cosine similarity reaches the threshold
and no other edges: every edge has `source < target < n` and
similarity ≥ threshold, every qualifying pair is present, no two edges share
the same pair, and fewer than 2 embeddings give no edge at all. -/
theorem build_connections_exact (embs : List Vec) (threshold : ℝ) :
    (∀ c ∈ _calculate_connections embs threshold,
      c.source < c.target ∧ c.target < embs.length ∧
      threshold ≤ _cosine_similarity (embs.getD c.source [])
        (embs.getD c.target []) ∧
      c.strength = _cosine_similarity (embs.getD c.source [])
        (embs.getD c.target [])) ∧
    (∀ i j, i < j → j < embs.length →
      threshold ≤ _cosine_similarity (embs.getD i []) (embs.getD j []) →
      (⟨i, j, _cosine_similarity (embs.getD i []) (embs.getD j [])⟩ :
          Connection) ∈ _calculate_connections embs threshold) ∧
    List.Pairwise (fun c d => c.source ≠ d.source ∨ c.target ≠ d.target)
      (_calculate_connections embs threshold) ∧
    (embs.length < 2 → _calculate_connections embs threshold = []) := by
  refine ⟨?_, ?_, ?_, ?_⟩
  · intro c hc
    exact (mem_calculate_connections embs threshold c).mp hc
  · intro i j hij hjn hts
    exact (mem_calculate_connections embs threshold _).mpr ⟨hij, hjn, hts, rfl⟩
  · rw [_calculate_connections]
    by_cases hn : embs.length < 2
    · rw [if_pos hn]
      exact List.Pairwise.nil
    · rw [if_neg hn]
      rw [List.pairwise_flatMap]
      constructor
      · intro i _
        rw [List.pairwise_filterMap]
        refine (List.pairwise_lt_range' _ _).imp ?_
        intro j j' hjj' b hb b' hb'
        rw [Option.mem_def] at hb hb'
        obtain ⟨heq, -⟩ := emit_eq_some hb
        obtain ⟨heq', -⟩ := emit_eq_some hb'
        subst heq
        subst heq'
        exact Or.inr (show j ≠ j' by omega)
      · refine (List.pairwise_lt_range _).imp ?_
        intro i i' hii' x hx y hy
        obtain ⟨j, -, hj⟩ := List.mem_filterMap.mp hx
        obtain ⟨j', -, hj'⟩ := List.mem_filterMap.mp hy
        obtain ⟨heq, -⟩ := emit_eq_some hj
        obtain ⟨heq', -⟩ := emit_eq_some hj'
        subst heq
        subst heq'
        exact Or.inl (show i ≠ i' by omega)
  · intro hn
    rw [_calculate_connections, if_pos hn]

/-- Witness for C3 on two identical one-dimensional embeddings and
threshold `0.9`. -/
theorem build_connections_exact_witness :
    (0 < 1 ∧ 1 < ([[(1 : ℝ)], [(1 : ℝ)]] : List Vec).length ∧
      (9 / 10 : ℝ) ≤ _cosine_similarity
        (([[(1 : ℝ)], [(1 : ℝ)]] : List Vec).getD 0 [])
        (([[(1 : ℝ)], [(1 : ℝ)]] : List Vec).getD 1 [])) ∧
    (⟨0, 1, _cosine_similarity
        (([[(1 : ℝ)], [(1 : ℝ)]] : List Vec).getD 0 [])
        (([[(1 : ℝ)], [(1 : ℝ)]] : List Vec).getD 1 [])⟩ : Connection)
      ∈ _calculate_connections [[(1 : ℝ)], [(1 : ℝ)]] (9 / 10) := by
  have hbase : _cosine_similarity
      (([[(1 : ℝ)], [(1 : ℝ)]] : List Vec).getD 0 [])
      (([[(1 : ℝ)], [(1 : ℝ)]] : List Vec).getD 1 []) = 1 := by
    simp only [List.getD_cons_zero, List.getD_cons_succ]
    exact cosine_self_one [(1 : ℝ)] (by simp [normv])
  refine ⟨⟨by norm_num, by norm_num, by rw [hbase]; norm_num⟩, ?_⟩
  exact (build_connections_exact [[(1 : ℝ)], [(1 : ℝ)]] (9 / 10)).2.1 0 1
    (by norm_num) (by norm_num) (by rw [hbase]; norm_num)

/-- C6: with a threshold in `[0, 1]`, every emitted connection's strength
equals the pair's cosine similarity clamped into `[0, 1]`, and in particular
no emitted strength is negative or exceeds 1. -/
theorem connection_strength_in_unit_interval (embs : List Vec)
    (threshold : ℝ) (h0 : 0 ≤ threshold) (h1 : threshold ≤ 1) :
    ∀ c ∈ _calculate_connections embs threshold,
      c.strength = min (max (_cosine_similarity (embs.getD c.source [])
        (embs.getD c.target [])) 0) 1 ∧
      0 ≤ c.strength ∧ c.strength ≤ 1 := by
  intro c hc
  obtain ⟨-, -, hts, hstr⟩ :=
    (mem_calculate_connections embs threshold c).mp hc
  have hle : _cosine_similarity (embs.getD c.source [])
      (embs.getD c.target []) ≤ 1 := cosine_le_one _ _
  have hge : (0 : ℝ) ≤ _cosine_similarity (embs.getD c.source [])
      (embs.getD c.target []) := le_trans h0 hts
  rw [hstr, max_eq_left hge, min_eq_left hle]
  exact ⟨rfl, hge, hle⟩

/-- Witness for C6 on two identical one-dimensional embeddings and
threshold `0.5`. -/
theorem connection_strength_in_unit_interval_witness :
    (0 : ℝ) ≤ 1 / 2 ∧ (1 / 2 : ℝ) ≤ 1 ∧
    ((⟨0, 1, _cosine_similarity
        (([[(1 : ℝ)], [(1 : ℝ)]] : List Vec).getD 0 [])
        (([[(1 : ℝ)], [(1 : ℝ)]] : List Vec).getD 1 [])⟩ :
          Connection).strength =
      min (max (_cosine_similarity
        (([[(1 : ℝ)], [(1 : ℝ)]] : List Vec).getD 0 [])
        (([[(1 : ℝ)], [(1 : ℝ)]] : List Vec).getD 1 [])) 0) 1) := by
  have hbase : _cosine_similarity
      (([[(1 : ℝ)], [(1 : ℝ)]] : List Vec).getD 0 [])
      (([[(1 : ℝ)], [(1 : ℝ)]] : List Vec).getD 1 []) = 1 := by
    simp only [List.getD_cons_zero, List.getD_cons_succ]
    exact cosine_self_one [(1 : ℝ)] (by simp [normv])
  have hmem : (⟨0, 1, _cosine_similarity
      (([[(1 : ℝ)], [(1 : ℝ)]] : List Vec).getD 0 [])
      (([[(1 : ℝ)], [(1 : ℝ)]] : List Vec).getD 1 [])⟩ : Connection)
        ∈ _calculate_connections [[(1 : ℝ)], [(1 : ℝ)]] (1 / 2) :=
    (mem_calculate_connections _ _ _).mpr
      ⟨by norm_num, by norm_num, by rw [hbase]; norm_num, rfl⟩
  refine ⟨by norm_num, by norm_num, ?_⟩
  exact (connection_strength_in_unit_interval [[(1 : ℝ)], [(1 : ℝ)]] (1 / 2)
    (by norm_num) (by norm_num) _ hmem).1

/-! ### Clustering -/

/-- C7: `cluster_documents` returns a label list of the input's length
whenever it returns one (given that each estimator returns one label per
row); for fewer than two samples it returns all-zero labels; and under
KMeans with `n_clusters > N` it clamps the cluster count to `N` instead of
failing. -/
theorem cluster_documents_contract (ctx : ClusterCtx) (embs : List Vec)
    (method : String) (n_clusters : Option ℕ)
    (hk : ∀ k e, (ctx.kmeansFit k e).length = e.length)
    (hh : ∀ m e, (ctx.hdbscanFit m e).length = e.length)
    (hd : ∀ eps m e, (ctx.dbscanFit eps m e).length = e.length) :
    (∀ ls, cluster_documents ctx embs method n_clusters = .ok ls →
      ls.length = embs.length) ∧
    (embs.length < 2 →
      cluster_documents ctx embs method n_clusters
        = .ok (List.replicate embs.length 0)) ∧
    (∀ k, method = "kmeans" → n_clusters = some k → k ≠ 0 →
      2 ≤ embs.length → embs.length < k →
      cluster_documents ctx embs method n_clusters
        = .ok (ctx.kmeansFit embs.length embs)) := by
  refine ⟨?_, ?_, ?_⟩
  · intro ls hok
    rw [cluster_documents] at hok
    by_cases he : embs = []
    · rw [if_pos he] at hok
      rw [← (Except.ok.injEq _ _).mp hok, he]
      rfl
    rw [if_neg he] at hok
    by_cases hlt : embs.length < 2
    · rw [if_pos hlt] at hok
      rw [← (Except.ok.injEq _ _).mp hok, List.length_replicate]
    rw [if_neg hlt] at hok
    by_cases hb1 : method = "kmeans" ∧ nClustersTruthy n_clusters
    · rw [if_pos hb1] at hok
      rw [← (Except.ok.injEq _ _).mp hok, hk]
    rw [if_neg hb1] at hok
    by_cases hb2 : method = "hdbscan" ∧ ctx.hasHDBSCAN
    · rw [if_pos hb2] at hok
      rw [← (Except.ok.injEq _ _).mp hok, hh]
    rw [if_neg hb2] at hok
    by_cases hb3 : ctx.hasHDBSCAN
    · rw [if_pos hb3] at hok
      cases hok
    · rw [if_neg hb3] at hok
      rw [← (Except.ok.injEq _ _).mp hok, hd]
  · intro hlt
    by_cases he : embs = []
    · rw [cluster_documents, if_pos he, he]
      rfl
    · rw [cluster_documents, if_neg he, if_pos hlt]
  · intro k hm hnc hkne h2 hlen
    subst hm
    subst hnc
    have hne : embs ≠ [] := by
      intro h
      rw [h] at h2
      exact absurd h2 (by norm_num)
    rw [cluster_documents, if_neg hne, if_neg (by omega),
      if_pos ⟨rfl, hkne⟩]
    have : min ((some k).getD 0) embs.length = embs.length := by
      simp only [Option.getD_some]
      omega
    rw [this]



/-- Witness for C7: KMeans on three samples with `n_clusters = 5` is clamped
to 3 clusters. -/
theorem cluster_documents_contract_witness :
    2 ≤ ([[(1 : ℝ)], [(2 : ℝ)], [(3 : ℝ)]] : List Vec).length ∧
    ([[(1 : ℝ)], [(2 : ℝ)], [(3 : ℝ)]] : List Vec).length < 5 ∧
    cluster_documents ctxCW [[(1 : ℝ)], [(2 : ℝ)], [(3 : ℝ)]] "kmeans"
        (some 5)
      = .ok (ctxCW.kmeansFit ([[(1 : ℝ)], [(2 : ℝ)], [(3 : ℝ)]] :
          List Vec).length [[(1 : ℝ)], [(2 : ℝ)], [(3 : ℝ)]]) :=
  ⟨by norm_num, by norm_num,
    (cluster_documents_contract ctxCW [[(1 : ℝ)], [(2 : ℝ)], [(3 : ℝ)]]
      "kmeans" (some 5)
      (fun k e => by simp [ctxCW]) (fun m e => by simp [ctxCW])
      (fun eps m e => by simp [ctxCW])).2.2 5 rfl rfl
      (by norm_num) (by norm_num) (by norm_num)⟩

/-- C10: calling `cluster_documents` with `method="kmeans"` and no truthy
`n_clusters` on two samples reaches the final fallback branch; when the
HDBSCAN import succeeded this branch raises `NameError` (the name `DBSCAN`
was never imported), and only when the HDBSCAN import failed does it run
`DBSCAN(eps=0.5, min_samples=2)`. -/
theorem cluster_documents_kmeans_none_fallback :
    cluster_documents ctxCW [[(0 : ℝ)], [(1 : ℝ)]] "kmeans" none
      = .error .nameError ∧
    cluster_documents ctxDW [[(0 : ℝ)], [(1 : ℝ)]] "kmeans" none
      = .ok (ctxDW.dbscanFit ((1 : ℝ) / 2) 2 [[(0 : ℝ)], [(1 : ℝ)]]) := by
  constructor
  · rw [cluster_documents, if_neg (by simp), if_neg (by norm_num),
      if_neg (fun h => h.2), if_neg (by rintro ⟨h, -⟩; simp at h),
      if_pos (by simp [ctxCW])]
  · rw [cluster_documents, if_neg (by simp), if_neg (by norm_num),
      if_neg (fun h => h.2), if_neg (by rintro ⟨h, -⟩; simp at h),
      if_neg (by simp [ctxDW])]

/-! ### Elbow heuristic -/

lemma secondDerivative_cons3 (a b c : ℝ) (rest : List ℝ) :
    secondDerivative (a :: b :: c :: rest)
      = (c - 2 * b + a) :: secondDerivative (b :: c :: rest) := rfl

lemma secondDerivative_length : ∀ l : List ℝ,
    (secondDerivative l).length = l.length - 2
  | [] => rfl
  | [_] => rfl
  | [_, _] => rfl
  | a :: b :: c :: rest => by
      rw [secondDerivative_cons3, List.length_cons,
        secondDerivative_length (b :: c :: rest)]
      simp

lemma secondDerivative_getD : ∀ (l : List ℝ) (m : ℕ), m < l.length - 2 →
    (secondDerivative l).getD m 0
      = l.getD (m + 2) 0 - 2 * l.getD (m + 1) 0 + l.getD m 0
  | [], m, h => absurd h (by simp)
  | [_], m, h => absurd h (by simp)
  | [_, _], m, h => absurd h (by simp)
  | a :: b :: c :: rest, 0, _ => by
      rw [secondDerivative_cons3]
      rfl
  | a :: b :: c :: rest, m + 1, h => by
      rw [secondDerivative_cons3, List.getD_cons_succ,
        secondDerivative_getD (b :: c :: rest) m (by simp at h ⊢; omega)]
      simp only [List.getD_cons_succ]

lemma argmaxAux_spec (vs : List ℝ) : ∀ (i bi : ℕ) (bv : ℝ),
    (argmaxAux vs i bi bv = bi ∧ ∀ j, j < vs.length → vs.getD j 0 ≤ bv) ∨
    (∃ j, j < vs.length ∧ argmaxAux vs i bi bv = i + j ∧ bv < vs.getD j 0 ∧
      (∀ m, m < vs.length → vs.getD m 0 ≤ vs.getD j 0) ∧
      (∀ m, m < j → vs.getD m 0 < vs.getD j 0)) := by
  induction vs with
  | nil =>
      intro i bi bv
      left
      exact ⟨rfl, fun j hj => absurd hj (by simp)⟩
  | cons v vs ih =>
      intro i bi bv
      rw [argmaxAux]
      by_cases hbv : bv < v
      · rw [if_pos hbv]
        rcases ih (i + 1) i v with ⟨heq, hall⟩ | ⟨j, hj, heq, hlt, hmax, hfirst⟩
        · right
          refine ⟨0, by simp, by rw [heq, Nat.add_zero], hbv, ?_, by omega⟩
          intro m hm
          cases m with
          | zero => simp
          | succ m =>
              simp only [List.getD_cons_succ, List.getD_cons_zero]
              exact hall m (by simpa using hm)
        · right
          refine ⟨j + 1, by simpa using hj, by rw [heq]; omega,
            lt_trans hbv (by simpa using hlt), ?_, ?_⟩
          · intro m hm
            cases m with
            | zero =>
                simp only [List.getD_cons_succ, List.getD_cons_zero]
                exact le_of_lt hlt
            | succ m =>
                simp only [List.getD_cons_succ]
                exact hmax m (by simpa using hm)
          · intro m hm
            cases m with
            | zero =>
                simp only [List.getD_cons_succ, List.getD_cons_zero]
                exact hlt
            | succ m =>
                simp only [List.getD_cons_succ]
                exact hfirst m (by omega)
      · rw [if_neg hbv]
        have hvle : v ≤ bv := not_lt.mp hbv
        rcases ih (i + 1) bi bv with ⟨heq, hall⟩ | ⟨j, hj, heq, hlt, hmax, hfirst⟩
        · left
          refine ⟨heq, ?_⟩
          intro m hm
          cases m with
          | zero => simpa using hvle
          | succ m =>
              simp only [List.getD_cons_succ]
              exact hall m (by simpa using hm)
        · right
          refine ⟨j + 1, by simpa using hj, by rw [heq]; omega,
            by simpa using hlt, ?_, ?_⟩
          · intro m hm
            cases m with
            | zero =>
                simp only [List.getD_cons_succ, List.getD_cons_zero]
                exact le_of_lt (lt_of_le_of_lt hvle hlt)
            | succ m =>
                simp only [List.getD_cons_succ]
                exact hmax m (by simpa using hm)
          · intro m hm
            cases m with
            | zero =>
                simp only [List.getD_cons_succ, List.getD_cons_zero]
                exact lt_of_le_of_lt hvle hlt
            | succ m =>
                simp only [List.getD_cons_succ]
                exact hfirst m (by omega)

lemma np_argmax_spec (l : List ℝ) (hne : l ≠ []) :
    np_argmax l < l.length ∧
    (∀ m, m < l.length → l.getD m 0 ≤ l.getD (np_argmax l) 0) ∧
    (∀ m, m < np_argmax l → l.getD m 0 < l.getD (np_argmax l) 0) := by
  cases l with
  | nil => exact absurd rfl hne
  | cons v vs =>
      rw [np_argmax]
      rcases argmaxAux_spec vs 1 0 v with ⟨heq, hall⟩ | ⟨j, hj, heq, hlt, hmax, hfirst⟩
      · rw [heq]
        refine ⟨by simp, ?_, by omega⟩
        intro m hm
        cases m with
        | zero => simp
        | succ m =>
            simp only [List.getD_cons_succ, List.getD_cons_zero]
            exact hall m (by simpa using hm)
      · rw [heq]
        have h1j : 1 + j = j + 1 := by omega
        rw [h1j]
        refine ⟨by simp; omega, ?_, ?_⟩
        · intro m hm
          cases m with
          | zero =>
              simp only [List.getD_cons_succ, List.getD_cons_zero]
              exact le_of_lt hlt
          | succ m =>
              simp only [List.getD_cons_succ]
              exact hmax m (by simpa using hm)
        · intro m hm
          cases m with
          | zero =>
              simp only [List.getD_cons_succ, List.getD_cons_zero]
              exact hlt
          | succ m =>
              simp only [List.getD_cons_succ]
              exact hfirst m (by omega)

lemma suggest_optimal_clusters_eq_of_ge (inertiaOf : ℕ → ℝ) (n : ℕ)
    (h3 : ¬ n < 3) :
    suggest_optimal_clusters inertiaOf n =
      if ((List.range' 1 (min 10 (n - 1))).map inertiaOf).length < 3 then 2
      else np_argmax (secondDerivative
        ((List.range' 1 (min 10 (n - 1))).map inertiaOf)) + 2 := by
  rw [suggest_optimal_clusters, if_neg h3]

/-- C4 counterexample: with two embeddings there is only one candidate k
(fewer than 3), yet `suggest_optimal_clusters` returns 1, not the claimed
fixed default 2. -/
theorem suggest_optimal_clusters_two_embeddings :
    suggest_optimal_clusters (fun _ => (0 : ℝ)) 2 = 1 ∧ (1 : ℕ) ≠ 2 :=
  ⟨by rw [suggest_optimal_clusters, if_pos (by norm_num)], by norm_num⟩

/-- C4 (amended): `suggest_optimal_clusters` returns 1 for fewer than 3
embeddings, returns 2 for exactly 3 embeddings (where the inertia list for
`k = 1..min(10, N-1)` has fewer than 3 entries), and otherwise returns
`k = m + 2` where `m` is the first index attaining the maximum of the
discrete second derivative of the inertia sequence. -/
theorem suggest_optimal_clusters_cases (inertiaOf : ℕ → ℝ) (n : ℕ) :
    (n < 3 → suggest_optimal_clusters inertiaOf n = 1) ∧
    (n = 3 → suggest_optimal_clusters inertiaOf n = 2) ∧
    (4 ≤ n →
      2 ≤ suggest_optimal_clusters inertiaOf n ∧
      suggest_optimal_clusters inertiaOf n - 2 <
        (secondDerivative ((List.range' 1 (min 10 (n - 1))).map
          inertiaOf)).length ∧
      (∀ m, m < (secondDerivative ((List.range' 1 (min 10 (n - 1))).map
          inertiaOf)).length →
        (secondDerivative ((List.range' 1 (min 10 (n - 1))).map
          inertiaOf)).getD m 0
          ≤ (secondDerivative ((List.range' 1 (min 10 (n - 1))).map
              inertiaOf)).getD (suggest_optimal_clusters inertiaOf n - 2) 0) ∧
      (∀ m, m < suggest_optimal_clusters inertiaOf n - 2 →
        (secondDerivative ((List.range' 1 (min 10 (n - 1))).map
          inertiaOf)).getD m 0
          < (secondDerivative ((List.range' 1 (min 10 (n - 1))).map
              inertiaOf)).getD (suggest_optimal_clusters inertiaOf n - 2) 0)) := by
  refine ⟨?_, ?_, ?_⟩
  · intro h
    rw [suggest_optimal_clusters, if_pos h]
  · intro h
    subst h
    rw [suggest_optimal_clusters_eq_of_ge _ _ (by norm_num),
      if_pos (by simp)]
  · intro h4
    have hlen : ((List.range' 1 (min 10 (n - 1))).map inertiaOf).length
        = min 10 (n - 1) := by
      rw [List.length_map, List.length_range']
    have h3 : ¬ ((List.range' 1 (min 10 (n - 1))).map inertiaOf).length < 3 := by
      rw [hlen]
      omega
    have hsd : 0 < (secondDerivative ((List.range' 1 (min 10 (n - 1))).map
        inertiaOf)).length := by
      rw [secondDerivative_length, hlen]
      omega
    have hr : suggest_optimal_clusters inertiaOf n
        = np_argmax (secondDerivative ((List.range' 1 (min 10 (n - 1))).map
            inertiaOf)) + 2 := by
      rw [suggest_optimal_clusters_eq_of_ge _ _ (by omega), if_neg h3]
    obtain ⟨hlt, hmax, hfirst⟩ := np_argmax_spec
      (secondDerivative ((List.range' 1 (min 10 (n - 1))).map inertiaOf))
      (List.length_pos.mp hsd)
    rw [hr]
    refine ⟨by omega, ?_, ?_, ?_⟩
    · simpa using hlt
    · simpa using hmax
    · simpa using hfirst

/-- Witness for the amended C4 at five embeddings with constant inertia. -/
theorem suggest_optimal_clusters_cases_witness :
    4 ≤ 5 ∧ 2 ≤ suggest_optimal_clusters (fun _ => (0 : ℝ)) 5 :=
  ⟨by norm_num,
    ((suggest_optimal_clusters_cases (fun _ => (0 : ℝ)) 5).2.2 (by norm_num)).1⟩

/-! ### Projection fallback behaviour -/

lemma tsne_positions_unavailable (ctx : ProjCtx) (embs : List Vec)
    (ha : ctx.tsneAvailable = false) :
    _tsne_positions ctx embs = .ok (_pca_positions ctx embs) := by
  rw [_tsne_positions, if_pos (by simp [ha])]

lemma tsne_positions_import_fallback (ctx : ProjCtx) (embs : List Vec)
    (h1 : embs.length ≠ 1) (hf : ctx.tsneFit embs = .error .importError) :
    _tsne_positions ctx embs = .ok (_pca_positions ctx embs) := by
  by_cases ha : ctx.tsneAvailable
  · rw [_tsne_positions, if_neg (by simp [ha]), if_neg h1, hf]
  · exact tsne_positions_unavailable ctx embs (by simpa using ha)

lemma tsne_positions_fit_error (ctx : ProjCtx) (embs : List Vec) (e : PyError)
    (ha : ctx.tsneAvailable = true) (h1 : embs.length ≠ 1)
    (hf : ctx.tsneFit embs = .error e) (hne : e ≠ .importError) :
    _tsne_positions ctx embs = .error e := by
  rw [_tsne_positions, if_neg (by simp [ha]), if_neg h1, hf]
  cases e with
  | importError => exact absurd rfl hne
  | valueError => rfl
  | nameError => rfl

lemma umap_positions_unavailable (ctx : ProjCtx) (embs : List Vec)
    (ha : ctx.umapAvailable = false) :
    _umap_positions ctx embs = .ok (_pca_positions ctx embs) := by
  rw [_umap_positions, if_pos (by simp [ha])]

lemma umap_positions_import_fallback (ctx : ProjCtx) (embs : List Vec)
    (h1 : embs.length ≠ 1) (hf : ctx.umapFit embs = .error .importError) :
    _umap_positions ctx embs = .ok (_pca_positions ctx embs) := by
  by_cases ha : ctx.umapAvailable
  · rw [_umap_positions, if_neg (by simp [ha]), if_neg h1, hf]
  · exact umap_positions_unavailable ctx embs (by simpa using ha)

lemma umap_positions_fit_error (ctx : ProjCtx) (embs : List Vec) (e : PyError)
    (ha : ctx.umapAvailable = true) (h1 : embs.length ≠ 1)
    (hf : ctx.umapFit embs = .error e) (hne : e ≠ .importError) :
    _umap_positions ctx embs = .error e := by
  rw [_umap_positions, if_neg (by simp [ha]), if_neg h1, hf]
  cases e with
  | importError => exact absurd rfl hne
  | valueError => rfl
  | nameError => rfl

lemma calculate_tsne_eq_pca_of_raw (ctx : ProjCtx) (embs : List Vec)
    (h : _tsne_positions ctx embs = .ok (_pca_positions ctx embs)) :
    calculate_3d_positions ctx embs "tsne"
      = calculate_3d_positions ctx embs "pca" := by
  by_cases he : embs = []
  · rw [calculate_3d_positions, if_pos he, calculate_3d_positions, if_pos he]
  · rw [calculate_3d_positions, if_neg he, calculate_3d_positions, if_neg he,
      if_neg (by decide), if_pos rfl, if_pos rfl, h]

lemma calculate_umap_eq_pca_of_raw (ctx : ProjCtx) (embs : List Vec)
    (h : _umap_positions ctx embs = .ok (_pca_positions ctx embs)) :
    calculate_3d_positions ctx embs "umap"
      = calculate_3d_positions ctx embs "pca" := by
  by_cases he : embs = []
  · rw [calculate_3d_positions, if_pos he, calculate_3d_positions, if_pos he]
  · rw [calculate_3d_positions, if_neg he, calculate_3d_positions, if_neg he,
      if_neg (by decide), if_neg (by decide), if_pos rfl, if_pos rfl, h]


lemma normalize_positions_zero_pair :
    _normalize_positions [(0 : P3), (0 : P3)] = [(0 : P3), (0 : P3)] := by
  have hc : ([(0 : P3), (0 : P3)]).map
      (fun p => p - centroid3 [(0 : P3), (0 : P3)]) = [(0 : P3), (0 : P3)] := by
    simp [centroid3]
  have hm : maxDist [(0 : P3), (0 : P3)] = 0 := by
    rw [maxDist]
    simp [norm3_zero]
  rw [normalize_positions_eq _ (by simp), hc, hm, if_neg (lt_irrefl 0)]

/-- C5 counterexample: a t-SNE fit that raises a non-import error is not
recovered — the error surfaces to the caller instead of the PCA result. -/
theorem tsne_runtime_failure_surfaces :
    calculate_3d_positions ctxTE [[(0 : ℝ)], [(1 : ℝ)]] "tsne"
      = .error .valueError ∧
    calculate_3d_positions ctxTE [[(0 : ℝ)], [(1 : ℝ)]] "pca"
      = .ok [(0 : P3), (0 : P3)] ∧
    (Except.error PyError.valueError : Except PyError (List P3))
      ≠ .ok [(0 : P3), (0 : P3)] := by
  refine ⟨?_, ?_, by simp⟩
  · rw [calculate_3d_positions, if_neg (by simp), if_neg (by decide),
      if_pos rfl, tsne_positions_fit_error ctxTE _ _ rfl (by simp) rfl
        (by simp)]
  · rw [calculate_3d_positions, if_neg (by simp), if_pos rfl]
    have hp : _pca_positions ctxTE [[(0 : ℝ)], [(1 : ℝ)]] = [(0 : P3), (0 : P3)] := by
      rw [_pca_positions, if_neg (by simp)]
      simp [ctxTE, Prod.ext_iff]
    rw [hp]
    exact congrArg Except.ok normalize_positions_zero_pair

/-- C5 (amended): when the requested t-SNE/UMAP library fails to import —
and only then — the projection silently falls back to the PCA path and
returns its result; a non-import failure of the fitted algorithm propagates
to the caller as an error. -/
theorem projection_fallback_on_import_only (ctx : ProjCtx) (embs : List Vec) :
    (ctx.tsneAvailable = false →
      calculate_3d_positions ctx embs "tsne"
        = calculate_3d_positions ctx embs "pca") ∧
    (ctx.tsneFit embs = .error .importError →
      calculate_3d_positions ctx embs "tsne"
        = calculate_3d_positions ctx embs "pca") ∧
    (∀ e, ctx.tsneFit embs = .error e → e ≠ .importError → embs ≠ [] →
      embs.length ≠ 1 → ctx.tsneAvailable = true →
      calculate_3d_positions ctx embs "tsne" = .error e) ∧
    (ctx.umapAvailable = false →
      calculate_3d_positions ctx embs "umap"
        = calculate_3d_positions ctx embs "pca") ∧
    (ctx.umapFit embs = .error .importError →
      calculate_3d_positions ctx embs "umap"
        = calculate_3d_positions ctx embs "pca") ∧
    (∀ e, ctx.umapFit embs = .error e → e ≠ .importError → embs ≠ [] →
      embs.length ≠ 1 → ctx.umapAvailable = true →
      calculate_3d_positions ctx embs "umap" = .error e) := by
  refine ⟨?_, ?_, ?_, ?_, ?_, ?_⟩
  · intro ha
    exact calculate_tsne_eq_pca_of_raw ctx embs
      (tsne_positions_unavailable ctx embs ha)
  · intro hf
    by_cases h1 : embs.length = 1
    · obtain ⟨v, rfl⟩ := List.length_eq_one.mp h1
      exact calculate_tsne_eq_pca_of_raw ctx [v]
        (by rw [tsne_positions_single, pca_positions_single])
    · exact calculate_tsne_eq_pca_of_raw ctx embs
        (tsne_positions_import_fallback ctx embs h1 hf)
  · intro e hf hne hee h1 ha
    rw [calculate_3d_positions, if_neg hee, if_neg (by decide), if_pos rfl,
      tsne_positions_fit_error ctx embs e ha h1 hf hne]
  · intro ha
    exact calculate_umap_eq_pca_of_raw ctx embs
      (umap_positions_unavailable ctx embs ha)
  · intro hf
    by_cases h1 : embs.length = 1
    · obtain ⟨v, rfl⟩ := List.length_eq_one.mp h1
      exact calculate_umap_eq_pca_of_raw ctx [v]
        (by rw [umap_positions_single, pca_positions_single])
    · exact calculate_umap_eq_pca_of_raw ctx embs
        (umap_positions_import_fallback ctx embs h1 hf)
  · intro e hf hne hee h1 ha
    rw [calculate_3d_positions, if_neg hee, if_neg (by decide),
      if_neg (by decide), if_pos rfl,
      umap_positions_fit_error ctx embs e ha h1 hf hne]

/-- Witness for the amended C5: with the t-SNE library unavailable the
projection result coincides with the PCA path's result. -/
theorem projection_fallback_on_import_only_witness :
    ctxPW.tsneAvailable = false ∧
    calculate_3d_positions ctxPW [[(0 : ℝ)], [(1 : ℝ)]] "tsne"
      = calculate_3d_positions ctxPW [[(0 : ℝ)], [(1 : ℝ)]] "pca" :=
  ⟨rfl, (projection_fallback_on_import_only ctxPW [[(0 : ℝ)], [(1 : ℝ)]]).1 rfl⟩

/-! ### Cluster summaries -/

lemma memberIdxFrom_eq : ∀ (labs : List ℤ) (i : ℕ) (lab : ℤ),
    memberIdxFrom labs i lab
      = ((List.range labs.length).filter
          (fun m => labs.getD m 0 = lab)).map (fun m => m + i)
  | [], i, lab => by simp [memberIdxFrom]
  | l :: rest, i, lab => by
      rw [memberIdxFrom, List.length_cons, List.range_succ_eq_map,
        List.filter_cons, memberIdxFrom_eq rest (i + 1) lab]
      have hfil : ((List.range rest.length).map Nat.succ).filter
          (fun m => (l :: rest).getD m 0 = lab)
          = ((List.range rest.length).filter
              (fun m => rest.getD m 0 = lab)).map Nat.succ := by
        rw [List.filter_map]
        exact congrArg _ (List.filter_congr (fun a _ => by
          simp [Function.comp]))
      have hmap : (((List.range rest.length).filter
          (fun m => rest.getD m 0 = lab)).map Nat.succ).map (fun m => m + i)
          = ((List.range rest.length).filter
              (fun m => rest.getD m 0 = lab)).map (fun m => m + (i + 1)) := by
        rw [List.map_map]
        exact List.map_congr_left (fun a _ => by simp [Function.comp]; omega)
      by_cases hl : l = lab
      · rw [if_pos hl]
        rw [if_pos (show decide ((l :: rest).getD 0 0 = lab) = true by
          simp [hl])]
        rw [List.map_cons, hfil, hmap]
        simp
      · rw [if_neg hl]
        rw [if_neg (show ¬ decide ((l :: rest).getD 0 0 = lab) = true by
          simp [hl])]
        rw [hfil, hmap]
        simp

lemma memberIdxFrom_zero (labs : List ℤ) (lab : ℤ) :
    memberIdxFrom labs 0 lab
      = (List.range labs.length).filter (fun m => labs.getD m 0 = lab) := by
  rw [memberIdxFrom_eq]
  simp

lemma insertDoc_gid_mem : ∀ (gs : List LabelGroup) (lab : ℤ) (i : ℕ) (p : P3)
    (g : LabelGroup), g ∈ insertDoc gs lab i p → g ∈ gs ∨ g.gid = lab
  | [], lab, i, p, g => by
      intro hg
      rw [insertDoc] at hg
      right
      rw [List.mem_singleton.mp hg]
  | g' :: rest, lab, i, p, g => by
      intro hg
      rw [insertDoc] at hg
      by_cases h : g'.gid = lab
      · rw [if_pos h] at hg
        rcases List.mem_cons.mp hg with rfl | hmem
        · right
          exact h
        · left
          exact List.mem_cons_of_mem _ hmem
      · rw [if_neg h] at hg
        rcases List.mem_cons.mp hg with rfl | hmem
        · left
          exact List.mem_cons_self _ _
        · rcases insertDoc_gid_mem rest lab i p g hmem with h1 | h2
          · left
            exact List.mem_cons_of_mem _ h1
          · right
            exact h2

lemma insertDoc_gids : ∀ (gs : List LabelGroup) (lab : ℤ) (i : ℕ) (p : P3),
    (insertDoc gs lab i p).map LabelGroup.gid
      = if lab ∈ gs.map LabelGroup.gid then gs.map LabelGroup.gid
        else gs.map LabelGroup.gid ++ [lab]
  | [], lab, i, p => by simp [insertDoc]
  | g' :: rest, lab, i, p => by
      rw [insertDoc]
      by_cases h : g'.gid = lab
      · rw [if_pos h, if_pos (by rw [List.map_cons, List.mem_cons]; exact Or.inl h.symm)]
        rw [List.map_cons, List.map_cons]
      · rw [if_neg h, List.map_cons, List.map_cons, insertDoc_gids rest lab i p]
        by_cases hm : lab ∈ rest.map LabelGroup.gid
        · rw [if_pos hm, if_pos (List.mem_cons_of_mem _ hm)]
        · have hout : ¬ lab ∈ g'.gid :: rest.map LabelGroup.gid := by
            rw [List.mem_cons]
            rintro (hh | hh)
            · exact h hh.symm
            · exact hm hh
          rw [if_neg hm, if_neg hout, List.cons_append]

lemma mem_gids_insertDoc (gs : List LabelGroup) (lab : ℤ) (i : ℕ) (p : P3)
    (x : ℤ) (hx : x ∈ gs.map LabelGroup.gid) :
    x ∈ (insertDoc gs lab i p).map LabelGroup.gid := by
  rw [insertDoc_gids]
  by_cases hm : lab ∈ gs.map LabelGroup.gid
  · rw [if_pos hm]
    exact hx
  · rw [if_neg hm]
    exact List.mem_append_left _ hx

lemma lab_mem_gids_insertDoc (gs : List LabelGroup) (lab : ℤ) (i : ℕ) (p : P3) :
    lab ∈ (insertDoc gs lab i p).map LabelGroup.gid := by
  rw [insertDoc_gids]
  by_cases hm : lab ∈ gs.map LabelGroup.gid
  · rw [if_pos hm]
    exact hm
  · rw [if_neg hm]
    exact List.mem_append_right _ (List.mem_singleton_self _)

lemma insertDoc_nodup (gs : List LabelGroup) (lab : ℤ) (i : ℕ) (p : P3)
    (hnd : (gs.map LabelGroup.gid).Nodup) :
    ((insertDoc gs lab i p).map LabelGroup.gid).Nodup := by
  rw [insertDoc_gids]
  by_cases hm : lab ∈ gs.map LabelGroup.gid
  · rw [if_pos hm]
    exact hnd
  · rw [if_neg hm]
    refine hnd.append (List.nodup_singleton _) ?_
    intro x hx hx'
    rw [List.mem_singleton] at hx'
    subst hx'
    exact hm hx

lemma insertDoc_mem : ∀ (gs : List LabelGroup) (lab : ℤ) (i : ℕ) (p : P3)
    (g : LabelGroup), (gs.map LabelGroup.gid).Nodup →
    g ∈ insertDoc gs lab i p →
    (g ∈ gs ∧ g.gid ≠ lab) ∨
    (∃ g₀ ∈ gs, g₀.gid = lab ∧
      g = ⟨lab, g₀.gdocs ++ [i], g₀.gpos ++ [p]⟩) ∨
    ((∀ g₀ ∈ gs, g₀.gid ≠ lab) ∧ g = ⟨lab, [i], [p]⟩)
  | [], lab, i, p, g => by
      intro _ hg
      rw [insertDoc] at hg
      right; right
      exact ⟨by simp, List.mem_singleton.mp hg⟩
  | g' :: rest, lab, i, p, g => by
      intro hnd hg
      rw [List.map_cons, List.nodup_cons] at hnd
      obtain ⟨hh, hndr⟩ := hnd
      rw [insertDoc] at hg
      by_cases h : g'.gid = lab
      · rw [if_pos h] at hg
        rcases List.mem_cons.mp hg with rfl | hmem
        · right; left
          exact ⟨g', List.mem_cons_self _ _, h, by rw [h]⟩
        · left
          refine ⟨List.mem_cons_of_mem _ hmem, ?_⟩
          intro hgl
          apply hh
          rw [h, ← hgl]
          exact List.mem_map_of_mem _ hmem
      · rw [if_neg h] at hg
        rcases List.mem_cons.mp hg with rfl | hmem
        · left
          exact ⟨List.mem_cons_self _ _, h⟩
        · rcases insertDoc_mem rest lab i p g hndr hmem with
            ⟨h1, h2⟩ | ⟨g₀, hg₀, hg₀l, heq⟩ | ⟨hfresh, heq⟩
          · left
            exact ⟨List.mem_cons_of_mem _ h1, h2⟩
          · right; left
            exact ⟨g₀, List.mem_cons_of_mem _ hg₀, hg₀l, heq⟩
          · right; right
            refine ⟨?_, heq⟩
            intro g₀ hg₀
            rcases List.mem_cons.mp hg₀ with rfl | hg₀r
            · exact h
            · exact hfresh g₀ hg₀r

lemma buildGroups_mem : ∀ (labs : List ℤ) (i : ℕ) (gs : List LabelGroup)
    (positions : List P3) (g : LabelGroup),
    (gs.map LabelGroup.gid).Nodup →
    (∀ g₀ ∈ gs, g₀.gid ≠ -1) →
    g ∈ buildGroups positions labs i gs →
    (∃ g₀ ∈ gs, g.gid = g₀.gid ∧
      g.gdocs = g₀.gdocs ++ memberIdxFrom labs i g.gid ∧
      g.gpos = g₀.gpos ++ (memberIdxFrom labs i g.gid).map
        (fun m => positions.getD m ((0 : ℝ), (0 : ℝ), (0 : ℝ)))) ∨
    (g.gid ∉ gs.map LabelGroup.gid ∧ g.gid ≠ -1 ∧
      g.gdocs = memberIdxFrom labs i g.gid ∧
      g.gpos = (memberIdxFrom labs i g.gid).map
        (fun m => positions.getD m ((0 : ℝ), (0 : ℝ), (0 : ℝ)))) := by
  intro labs
  induction labs with
  | nil =>
      intro i gs positions g _ _ hg
      rw [buildGroups] at hg
      left
      exact ⟨g, hg, rfl, by simp [memberIdxFrom], by simp [memberIdxFrom]⟩
  | cons lab rest ih =>
      intro i gs positions g hnd hno hg
      rw [buildGroups] at hg
      by_cases hlab : lab = -1
      · rw [if_pos hlab] at hg
        rcases ih (i + 1) gs positions g hnd hno hg with
          ⟨g₀, hg₀, hid, hdocs, hpos⟩ | ⟨hnm, hne, hdocs, hpos⟩
        · left
          have hgne : g.gid ≠ -1 := by
            rw [hid]
            exact hno g₀ hg₀
          have hcond : ¬ lab = g.gid := by
            intro hh
            exact hgne (by rw [← hh, hlab])
          refine ⟨g₀, hg₀, hid, ?_, ?_⟩
          · rw [memberIdxFrom, if_neg hcond, List.nil_append]
            exact hdocs
          · rw [memberIdxFrom, if_neg hcond, List.nil_append]
            exact hpos
        · right
          have hcond : ¬ lab = g.gid := by
            intro hh
            exact hne (by rw [← hh, hlab])
          refine ⟨hnm, hne, ?_, ?_⟩
          · rw [memberIdxFrom, if_neg hcond, List.nil_append]
            exact hdocs
          · rw [memberIdxFrom, if_neg hcond, List.nil_append]
            exact hpos
      · rw [if_neg hlab] at hg
        have hnd' := insertDoc_nodup gs lab i
          (positions.getD i ((0 : ℝ), (0 : ℝ), (0 : ℝ))) hnd
        have hno' : ∀ g₀ ∈ insertDoc gs lab i
            (positions.getD i ((0 : ℝ), (0 : ℝ), (0 : ℝ))), g₀.gid ≠ -1 := by
          intro g₀ hg₀
          rcases insertDoc_gid_mem _ _ _ _ _ hg₀ with hmem | hid
          · exact hno g₀ hmem
          · rw [hid]
            exact hlab
        rcases ih (i + 1) _ positions g hnd' hno' hg with
          ⟨g₁, hg₁, hid, hdocs, hpos⟩ | ⟨hnm, hne, hdocs, hpos⟩
        · rcases insertDoc_mem gs lab i _ g₁ hnd hg₁ with
            ⟨hmem, hglab⟩ | ⟨g₀, hg₀, hg₀lab, heq⟩ | ⟨hfresh, heq⟩
          · left
            have hcond : ¬ lab = g.gid := by
              intro hh
              exact hglab (by rw [← hid, ← hh])
            refine ⟨g₁, hmem, hid, ?_, ?_⟩
            · rw [memberIdxFrom, if_neg hcond, List.nil_append]
              exact hdocs
            · rw [memberIdxFrom, if_neg hcond, List.nil_append]
              exact hpos
          · left
            have hgid : g.gid = lab := by rw [hid, heq]
            refine ⟨g₀, hg₀, by rw [hgid, hg₀lab], ?_, ?_⟩
            · rw [hdocs, heq, memberIdxFrom, if_pos hgid.symm]
              exact List.append_assoc _ _ _
            · rw [hpos, heq, memberIdxFrom, if_pos hgid.symm, List.map_append]
              exact List.append_assoc _ _ _
          · right
            have hgid : g.gid = lab := by rw [hid, heq]
            refine ⟨?_, by rw [hgid]; exact hlab, ?_, ?_⟩
            · rw [hgid]
              intro hmem
              obtain ⟨g₀, hg₀, hg₀id⟩ := List.mem_map.mp hmem
              exact hfresh g₀ hg₀ hg₀id
            · rw [hdocs, heq, memberIdxFrom, if_pos hgid.symm]
            · rw [hpos, heq, memberIdxFrom, if_pos hgid.symm, List.map_append]
              rfl
        · right
          have hnotin : g.gid ∉ gs.map LabelGroup.gid := by
            intro hmem
            exact hnm (mem_gids_insertDoc gs lab i _ _ hmem)
          have hglab : g.gid ≠ lab := by
            intro hgl
            apply hnm
            rw [hgl]
            exact lab_mem_gids_insertDoc gs lab i _
          refine ⟨hnotin, hne, ?_, ?_⟩
          · rw [memberIdxFrom, if_neg (fun hh => hglab hh.symm),
              List.nil_append]
            exact hdocs
          · rw [memberIdxFrom, if_neg (fun hh => hglab hh.symm),
              List.nil_append]
            exact hpos

lemma cluster_info_spec (positions : List P3) (labels : List ℤ) :
    ∀ s ∈ _calculate_cluster_info positions labels,
      s.cluster_id ≠ -1 ∧
      s.document_indices = (List.range labels.length).filter
        (fun m => labels.getD m 0 = s.cluster_id) ∧
      s.size = ((List.range labels.length).filter
        (fun m => labels.getD m 0 = s.cluster_id)).length ∧
      s.center = (((List.range labels.length).filter
          (fun m => labels.getD m 0 = s.cluster_id)).length : ℝ)⁻¹ •
        (((List.range labels.length).filter
          (fun m => labels.getD m 0 = s.cluster_id)).map
          (fun m => positions.getD m ((0 : ℝ), (0 : ℝ), (0 : ℝ)))).sum := by
  intro s hs
  rw [_calculate_cluster_info] at hs
  by_cases hel : positions = [] ∨ labels = []
  · rw [if_pos hel] at hs
    exact absurd hs (List.not_mem_nil _)
  · rw [if_neg hel] at hs
    obtain ⟨g, hg, rfl⟩ := List.mem_map.mp hs
    rcases buildGroups_mem labels 0 [] positions g (by simp) (by simp) hg with
      ⟨g₀, hg₀, _⟩ | ⟨_, hne, hdocs, hpos⟩
    · exact absurd hg₀ (List.not_mem_nil _)
    · rw [memberIdxFrom_zero] at hdocs hpos
      refine ⟨hne, hdocs, ?_, ?_⟩
      · show g.gdocs.length = _
        rw [hdocs]
      · show ((g.gpos.length : ℝ))⁻¹ • g.gpos.sum = _
        rw [hpos, List.length_map]

/-- C8: `organize_spatial_layout` returns all-empty outputs on empty input
without error, and every produced cluster summary (derived by
`_calculate_cluster_info` from the computed positions and labels) has a
non-noise id, groups exactly the indices carrying its label, has size equal
to the number of grouped indices, and has center equal to the arithmetic
mean of the members' positions. -/
theorem organize_spatial_layout_contract {α : Type} (pctx : ProjCtx)
    (cctx : ClusterCtx) (docs : List α) (embs : List Vec)
    (positions : List P3) (labels : List ℤ) :
    (docs.isEmpty ∨ embs.isEmpty →
      organize_spatial_layout pctx cctx docs embs = .ok ⟨[], [], []⟩) ∧
    (∀ r, organize_spatial_layout pctx cctx docs embs = .ok r →
      docs ≠ [] → embs ≠ [] →
      calculate_3d_positions pctx embs "pca" = .ok positions →
      cluster_documents cctx embs "hdbscan" none = .ok labels →
      r.clusters = _calculate_cluster_info positions labels) ∧
    (positions.length = labels.length →
      ∀ s ∈ _calculate_cluster_info positions labels,
        s.cluster_id ≠ -1 ∧
        s.document_indices = (List.range labels.length).filter
          (fun m => labels.getD m 0 = s.cluster_id) ∧
        s.size = ((List.range labels.length).filter
          (fun m => labels.getD m 0 = s.cluster_id)).length ∧
        s.center = (((List.range labels.length).filter
            (fun m => labels.getD m 0 = s.cluster_id)).length : ℝ)⁻¹ •
          (((List.range labels.length).filter
            (fun m => labels.getD m 0 = s.cluster_id)).map
            (fun m => positions.getD m ((0 : ℝ), (0 : ℝ), (0 : ℝ)))).sum) := by
  refine ⟨?_, ?_, ?_⟩
  · intro h
    rw [organize_spatial_layout, if_pos h]
  · intro r hr hd he hcal hclu
    rw [organize_spatial_layout, if_neg (by simp [hd, he]), hcal, hclu] at hr
    rw [← (Except.ok.injEq _ _).mp hr]
  · intro _ s hs
    exact cluster_info_spec positions labels s hs

/-- Witness for C8: the empty input and a one-document layout. -/
theorem organize_spatial_layout_contract_witness :
    organize_spatial_layout ctxPW ctxDW ([] : List Unit) ([] : List Vec)
      = .ok ⟨[], [], []⟩ ∧
    (⟨[⟨(), ((0 : ℝ), (0 : ℝ), (0 : ℝ)), 0⟩],
      _calculate_cluster_info [((0 : ℝ), (0 : ℝ), (0 : ℝ))] [0],
      []⟩ : Layout Unit).clusters
      = _calculate_cluster_info [((0 : ℝ), (0 : ℝ), (0 : ℝ))] [0] ∧
    (∀ s ∈ _calculate_cluster_info [((0 : ℝ), (0 : ℝ), (0 : ℝ))] [0],
      s.cluster_id ≠ -1) := by
  have hclu : cluster_documents ctxDW [[(1 : ℝ)]] "hdbscan" none
      = .ok [0] := by
    rw [cluster_documents, if_neg (by simp), if_pos (by simp)]
    rfl
  have hconn : _calculate_connections [[(1 : ℝ)]] ((8 : ℝ) / 10) = [] := by
    rw [_calculate_connections, if_pos (by simp)]
  have hr : organize_spatial_layout ctxPW ctxDW [()] [[(1 : ℝ)]]
      = .ok ⟨[⟨(), ((0 : ℝ), (0 : ℝ), (0 : ℝ)), 0⟩],
        _calculate_cluster_info [((0 : ℝ), (0 : ℝ), (0 : ℝ))] [0], []⟩ := by
    rw [organize_spatial_layout, if_neg (by simp), ctxPW_pca_singleton, hclu]
    simp [hconn, List.enum, List.enumFrom]
  refine ⟨(organize_spatial_layout_contract ctxPW ctxDW ([] : List Unit)
      ([] : List Vec) [] []).1 (by simp), ?_, ?_⟩
  · exact (organize_spatial_layout_contract ctxPW ctxDW [()] [[(1 : ℝ)]]
      [((0 : ℝ), (0 : ℝ), (0 : ℝ))] [0]).2.1 _ hr (by simp) (by simp)
      ctxPW_pca_singleton hclu
  · intro s hs
    exact ((organize_spatial_layout_contract ctxPW ctxDW [()] [[(1 : ℝ)]]
      [((0 : ℝ), (0 : ℝ), (0 : ℝ))] [0]).2.2 (by simp) s hs).1
